import Mathlib

/-!
Verification of `src/spurt/utils/merge.py` against its specification.

The module has three independent pure functions:
* `find_common_points` : set intersection of two integer point clouds via a
  scalar encoding;
* `pairwise_unwrapped_diff` : percentile histogram of integer-cycle
  differences of two unwrapped-phase arrays;
* `l2_min` : least-squares solve with an empty-matrix fast path.

Each is embedded below as an executable Lean function, translated line by
line from the Python source.  Numpy float arithmetic is idealised as exact
rational arithmetic (ℚ); the float64 constant `np.pi` is embedded as its
exact rational value, and the `astype(np.int16)` narrowing cast is embedded
as the wrap-around reduction modulo 2^16 that numpy performs on x86.
-/

namespace Spurt

/-! ## Embedding of `find_common_points`

Point clouds are lists of coordinate pairs.  The claims under scrutiny
quantify only over clouds of non-negative integers, so coordinates are
embedded as natural numbers; the source assertion
`min(np.min(c1), np.min(c2)) >= 0` holds identically on this domain. -/

/-- The source value `np.amax(c[:, 1])`: maximum of the second coordinates
(as a fold with default 0; agrees with numpy on non-empty clouds, which is
the domain of every claim about this function). -/
def amaxSnd (c : List (ℕ × ℕ)) : ℕ := (c.map Prod.snd).foldr max 0

/-- The source encoding `c[:, 0] * m + c[:, 1]` applied to one point. -/
def encode (m : ℕ) (p : ℕ × ℕ) : ℕ := p.1 * m + p.2

/-- Model of `np.intersect1d(a, b, return_indices=True)[0]`: the sorted list
of distinct values occurring in both `a` and `b`.  Filtering `List.range`
over a bound exceeding every element of `a` yields exactly the common
values, in increasing order, each once. -/
def intersectVals (a b : List ℕ) : List ℕ :=
  (List.range (a.foldr max 0 + 1)).filter (fun v => decide (v ∈ a ∧ v ∈ b))

/-- Model of `np.intersect1d(a, b, return_indices=True)[1:]`: for each common
value, the index of its first occurrence in `a`, respectively in `b` (numpy
computes these via `np.unique(·, return_index=True)`, which returns
first-occurrence indices). -/
def intersectIdx (a b : List ℕ) : List ℕ × List ℕ :=
  ((intersectVals a b).map (fun v => a.indexOf v),
   (intersectVals a b).map (fun v => b.indexOf v))

/-- Embedding of `find_common_points`: encode both clouds with
`m = 1 + max(amax(c1[:,1]), amax(c2[:,1]))` and intersect the encodings. -/
def find_common_points (c1 c2 : List (ℕ × ℕ)) : List ℕ × List ℕ :=
  intersectIdx
    (c1.map (encode (1 + max (amaxSnd c1) (amaxSnd c2))))
    (c2.map (encode (1 + max (amaxSnd c1) (amaxSnd c2))))

theorem le_foldr_max {a : List ℕ} {v : ℕ} (hv : v ∈ a) : v ≤ a.foldr max 0 := by
  induction a with
  | nil => cases hv
  | cons x xs ih =>
    rcases List.mem_cons.mp hv with h | h
    · subst h; exact le_max_left _ _
    · exact le_trans (ih h) (le_max_right _ _)

theorem snd_le_amaxSnd {c : List (ℕ × ℕ)} {p : ℕ × ℕ} (hp : p ∈ c) :
    p.2 ≤ amaxSnd c :=
  le_foldr_max (List.mem_map_of_mem Prod.snd hp)

theorem encode_inj {m : ℕ} {p q : ℕ × ℕ} (hp : p.2 < m) (hq : q.2 < m)
    (h : encode m p = encode m q) : p = q := by
  unfold encode at h
  have h2 : p.2 = q.2 := by
    have e1 : (p.1 * m + p.2) % m = p.2 := by
      rw [Nat.mul_comm, Nat.mul_add_mod, Nat.mod_eq_of_lt hp]
    have e2 : (q.1 * m + q.2) % m = q.2 := by
      rw [Nat.mul_comm, Nat.mul_add_mod, Nat.mod_eq_of_lt hq]
    rw [← e1, ← e2, h]
  have h1 : p.1 = q.1 := by
    have hm : 0 < m := lt_of_le_of_lt (Nat.zero_le _) hp
    have : p.1 * m = q.1 * m := by omega
    exact Nat.eq_of_mul_eq_mul_right hm this
  exact Prod.ext h1 h2

theorem mem_intersectVals {a b : List ℕ} {v : ℕ} :
    v ∈ intersectVals a b ↔ v ∈ a ∧ v ∈ b := by
  unfold intersectVals
  rw [List.mem_filter]
  constructor
  · rintro ⟨-, h⟩
    exact of_decide_eq_true h
  · intro h
    refine ⟨List.mem_range.mpr ?_, decide_eq_true h⟩
    exact Nat.lt_succ_of_le (le_foldr_max h.1)

theorem nodup_intersectVals (a b : List ℕ) : (intersectVals a b).Nodup :=
  (List.nodup_range _).filter _

/-- For a value occurring in the encoded cloud, its first-occurrence index is
a valid index of the cloud, and re-encoding the point stored at that index
recovers the value. -/
theorem indexOf_encode_spec {cl : List (ℕ × ℕ)} {m v : ℕ}
    (hv : v ∈ cl.map (encode m)) :
    (cl.map (encode m)).indexOf v < cl.length ∧
    cl.getD ((cl.map (encode m)).indexOf v) (0, 0) ∈ cl ∧
    encode m (cl.getD ((cl.map (encode m)).indexOf v) (0, 0)) = v := by
  have hlen : (cl.map (encode m)).length = cl.length := List.length_map _ _
  have hi : (cl.map (encode m)).indexOf v < cl.length := by
    rw [← hlen]; exact List.indexOf_lt_length.mpr hv
  have hi2 : (cl.map (encode m)).indexOf v < (cl.map (encode m)).length := by
    rw [hlen]; exact hi
  have hgd : cl.getD ((cl.map (encode m)).indexOf v) (0, 0) =
      cl[(cl.map (encode m)).indexOf v] := List.getD_eq_getElem _ _ hi
  refine ⟨hi, ?_, ?_⟩
  · rw [hgd]; exact List.getElem_mem hi
  · rw [hgd]
    have hmap : (cl.map (encode m))[(cl.map (encode m)).indexOf v] =
        encode m (cl[(cl.map (encode m)).indexOf v]) := List.getElem_map _
    rw [← hmap]
    exact List.getElem_indexOf _

/-- The element of `intersectVals a b` at a valid position `k` belongs to
both `a` and `b`. -/
theorem intersectVals_getD_mem {a b : List ℕ} {k : ℕ}
    (hk : k < (intersectVals a b).length) :
    (intersectVals a b).getD k 0 ∈ a ∧ (intersectVals a b).getD k 0 ∈ b := by
  have : (intersectVals a b).getD k 0 ∈ intersectVals a b := by
    rw [List.getD_eq_getElem _ _ hk]; exact List.getElem_mem hk
  exact mem_intersectVals.mp this

/-- Unfolding of the two index lists of `intersectIdx` at position `k`. -/
theorem intersectIdx_getD {a b : List ℕ} {k : ℕ}
    (hk : k < (intersectVals a b).length) :
    (intersectIdx a b).1.getD k 0 = a.indexOf ((intersectVals a b).getD k 0) ∧
    (intersectIdx a b).2.getD k 0 = b.indexOf ((intersectVals a b).getD k 0) := by
  have hka : k < ((intersectVals a b).map (fun v => a.indexOf v)).length := by
    simpa using hk
  have hkb : k < ((intersectVals a b).map (fun v => b.indexOf v)).length := by
    simpa using hk
  constructor
  · show ((intersectVals a b).map (fun v => a.indexOf v)).getD k 0 = _
    rw [List.getD_eq_getElem _ _ hka, List.getElem_map, List.getD_eq_getElem _ _ hk]
  · show ((intersectVals a b).map (fun v => b.indexOf v)).getD k 0 = _
    rw [List.getD_eq_getElem _ _ hkb, List.getElem_map, List.getD_eq_getElem _ _ hk]

/-- Core soundness of the encode-and-intersect scheme, for any strict bound
`m` on the second coordinates of both clouds. -/
theorem intersectIdx_core {m : ℕ} {c1 c2 : List (ℕ × ℕ)}
    (hb1 : ∀ p ∈ c1, p.2 < m) (hb2 : ∀ p ∈ c2, p.2 < m) (k : ℕ)
    (hk : k < (intersectVals (c1.map (encode m)) (c2.map (encode m))).length) :
    (intersectIdx (c1.map (encode m)) (c2.map (encode m))).1.getD k 0 < c1.length ∧
    (intersectIdx (c1.map (encode m)) (c2.map (encode m))).2.getD k 0 < c2.length ∧
    c1.getD ((intersectIdx (c1.map (encode m)) (c2.map (encode m))).1.getD k 0) (0, 0) =
      c2.getD ((intersectIdx (c1.map (encode m)) (c2.map (encode m))).2.getD k 0) (0, 0) := by
  obtain ⟨hm1, hm2⟩ := intersectVals_getD_mem hk
  obtain ⟨hgd1, hgd2⟩ := intersectIdx_getD hk
  obtain ⟨s1, p1mem, e1⟩ := indexOf_encode_spec hm1
  obtain ⟨s2, p2mem, e2⟩ := indexOf_encode_spec hm2
  rw [hgd1, hgd2]
  exact ⟨s1, s2, encode_inj (hb1 _ p1mem) (hb2 _ p2mem) (e1.trans e2.symm)⟩

/-- Claim C4: `find_common_points` returns equal-length index sequences
`ii`, `jj`; every `ii[k]` is a valid index into `c1`, every `jj[k]` a valid
index into `c2`, and `c1[ii[k]] = c2[jj[k]]` componentwise. -/
theorem find_common_points_sound (c1 c2 : List (ℕ × ℕ))
    (h1 : c1 ≠ []) (h2 : c2 ≠ []) :
    (find_common_points c1 c2).1.length = (find_common_points c1 c2).2.length ∧
    ∀ k, k < (find_common_points c1 c2).1.length →
      (find_common_points c1 c2).1.getD k 0 < c1.length ∧
      (find_common_points c1 c2).2.getD k 0 < c2.length ∧
      c1.getD ((find_common_points c1 c2).1.getD k 0) (0, 0) =
        c2.getD ((find_common_points c1 c2).2.getD k 0) (0, 0) := by
  classical
  have hb1 : ∀ p ∈ c1, p.2 < 1 + max (amaxSnd c1) (amaxSnd c2) := by
    intro p hp
    have h := snd_le_amaxSnd hp
    have h2 := le_max_left (amaxSnd c1) (amaxSnd c2)
    omega
  have hb2 : ∀ p ∈ c2, p.2 < 1 + max (amaxSnd c1) (amaxSnd c2) := by
    intro p hp
    have h := snd_le_amaxSnd hp
    have h2 := le_max_right (amaxSnd c1) (amaxSnd c2)
    omega
  refine ⟨by simp [find_common_points, intersectIdx], ?_⟩
  intro k hk
  have hk2 : k < (intersectVals
      (c1.map (encode (1 + max (amaxSnd c1) (amaxSnd c2))))
      (c2.map (encode (1 + max (amaxSnd c1) (amaxSnd c2))))).length := by
    simpa [find_common_points, intersectIdx] using hk
  exact intersectIdx_core hb1 hb2 k hk2

/-- Witness for claim C4 at the concrete clouds used by the specification
text (`c1 = [[0,0],[1,2],[3,3]]`, `c2 = [[1,2],[5,5],[3,3]]`). -/
theorem find_common_points_sound_witness :
    (find_common_points [(0, 0), (1, 2), (3, 3)] [(1, 2), (5, 5), (3, 3)]).1.length =
      (find_common_points [(0, 0), (1, 2), (3, 3)] [(1, 2), (5, 5), (3, 3)]).2.length ∧
    ∀ k, k < (find_common_points [(0, 0), (1, 2), (3, 3)] [(1, 2), (5, 5), (3, 3)]).1.length →
      (find_common_points [(0, 0), (1, 2), (3, 3)] [(1, 2), (5, 5), (3, 3)]).1.getD k 0 <
        ([(0, 0), (1, 2), (3, 3)] : List (ℕ × ℕ)).length ∧
      (find_common_points [(0, 0), (1, 2), (3, 3)] [(1, 2), (5, 5), (3, 3)]).2.getD k 0 <
        ([(1, 2), (5, 5), (3, 3)] : List (ℕ × ℕ)).length ∧
      ([(0, 0), (1, 2), (3, 3)] : List (ℕ × ℕ)).getD
          ((find_common_points [(0, 0), (1, 2), (3, 3)] [(1, 2), (5, 5), (3, 3)]).1.getD k 0)
          (0, 0) =
        ([(1, 2), (5, 5), (3, 3)] : List (ℕ × ℕ)).getD
          ((find_common_points [(0, 0), (1, 2), (3, 3)] [(1, 2), (5, 5), (3, 3)]).2.getD k 0)
          (0, 0) :=
  find_common_points_sound _ _ (by decide) (by decide)

/-- Core of the deduplication property: with an abstract strict bound `m` on
second coordinates, each point in both clouds is represented by exactly one
position of the intersection. -/
theorem intersectIdx_dedup_core {m : ℕ} {c1 c2 : List (ℕ × ℕ)}
    (hb1 : ∀ q ∈ c1, q.2 < m) (hb2 : ∀ q ∈ c2, q.2 < m)
    {p : ℕ × ℕ} (hp1 : p ∈ c1) (hp2 : p ∈ c2) :
    ∃! k, k < (intersectVals (c1.map (encode m)) (c2.map (encode m))).length ∧
      c1.getD ((intersectIdx (c1.map (encode m)) (c2.map (encode m))).1.getD k 0) (0, 0) = p ∧
      c2.getD ((intersectIdx (c1.map (encode m)) (c2.map (encode m))).2.getD k 0) (0, 0) = p := by
  have hva : encode m p ∈ c1.map (encode m) := List.mem_map_of_mem _ hp1
  have hvb : encode m p ∈ c2.map (encode m) := List.mem_map_of_mem _ hp2
  have hvv : encode m p ∈ intersectVals (c1.map (encode m)) (c2.map (encode m)) :=
    mem_intersectVals.mpr ⟨hva, hvb⟩
  have hnd := nodup_intersectVals (c1.map (encode m)) (c2.map (encode m))
  -- the representing position is the index of the encoded point
  refine ⟨(intersectVals (c1.map (encode m)) (c2.map (encode m))).indexOf (encode m p),
    ⟨List.indexOf_lt_length.mpr hvv, ?_, ?_⟩, ?_⟩
  case _ =>
    have hk := List.indexOf_lt_length.mpr hvv
    have hval : (intersectVals (c1.map (encode m)) (c2.map (encode m))).getD
        ((intersectVals (c1.map (encode m)) (c2.map (encode m))).indexOf (encode m p)) 0 =
        encode m p := by
      rw [List.getD_eq_getElem _ _ hk]; exact List.getElem_indexOf hk
    obtain ⟨hgd1, -⟩ := intersectIdx_getD hk
    obtain ⟨-, -, e1⟩ := indexOf_encode_spec hva
    rw [hgd1, hval]
    obtain ⟨-, q1mem, eq1⟩ := indexOf_encode_spec hva
    exact encode_inj (hb1 _ q1mem) (hb1 _ hp1) eq1
  case _ =>
    have hk := List.indexOf_lt_length.mpr hvv
    have hval : (intersectVals (c1.map (encode m)) (c2.map (encode m))).getD
        ((intersectVals (c1.map (encode m)) (c2.map (encode m))).indexOf (encode m p)) 0 =
        encode m p := by
      rw [List.getD_eq_getElem _ _ hk]; exact List.getElem_indexOf hk
    obtain ⟨-, hgd2⟩ := intersectIdx_getD hk
    rw [hgd2, hval]
    obtain ⟨-, q2mem, eq2⟩ := indexOf_encode_spec hvb
    exact encode_inj (hb2 _ q2mem) (hb2 _ hp2) eq2
  case _ =>
    rintro k2 ⟨hk2, hc1, -⟩
    obtain ⟨hgd1, -⟩ := intersectIdx_getD hk2
    have hw : (intersectVals (c1.map (encode m)) (c2.map (encode m))).getD k2 0 ∈
        c1.map (encode m) := (intersectVals_getD_mem hk2).1
    obtain ⟨-, -, ew⟩ := indexOf_encode_spec hw
    rw [hgd1] at hc1
    rw [hc1] at ew
    -- ew : encode m p = vals.getD k2 0
    have hk := List.indexOf_lt_length.mpr hvv
    have hval : (intersectVals (c1.map (encode m)) (c2.map (encode m))).getD
        ((intersectVals (c1.map (encode m)) (c2.map (encode m))).indexOf (encode m p)) 0 =
        encode m p := by
      rw [List.getD_eq_getElem _ _ hk]; exact List.getElem_indexOf hk
    have heq : (intersectVals (c1.map (encode m)) (c2.map (encode m))).getD k2 0 =
        (intersectVals (c1.map (encode m)) (c2.map (encode m))).getD
          ((intersectVals (c1.map (encode m)) (c2.map (encode m))).indexOf (encode m p)) 0 := by
      rw [hval, ew]
    rw [List.getD_eq_getElem _ _ hk2, List.getD_eq_getElem _ _ hk] at heq
    exact (List.Nodup.getElem_inj_iff hnd).mp heq

/-- Claim C5: every coordinate pair occurring in both clouds is represented
exactly once among the index pairs returned by `find_common_points`, even
when the pair occurs several times inside one cloud. -/
theorem find_common_points_dedup (c1 c2 : List (ℕ × ℕ))
    (h1 : c1 ≠ []) (h2 : c2 ≠ []) (p : ℕ × ℕ) (hp1 : p ∈ c1) (hp2 : p ∈ c2) :
    ∃! k, k < (find_common_points c1 c2).1.length ∧
      c1.getD ((find_common_points c1 c2).1.getD k 0) (0, 0) = p ∧
      c2.getD ((find_common_points c1 c2).2.getD k 0) (0, 0) = p := by
  classical
  have hb1 : ∀ q ∈ c1, q.2 < 1 + max (amaxSnd c1) (amaxSnd c2) := by
    intro q hq
    have h := snd_le_amaxSnd hq
    have hh := le_max_left (amaxSnd c1) (amaxSnd c2)
    omega
  have hb2 : ∀ q ∈ c2, q.2 < 1 + max (amaxSnd c1) (amaxSnd c2) := by
    intro q hq
    have h := snd_le_amaxSnd hq
    have hh := le_max_right (amaxSnd c1) (amaxSnd c2)
    omega
  have hcore := intersectIdx_dedup_core hb1 hb2 hp1 hp2
  simpa [find_common_points, intersectIdx, List.length_map] using hcore

/-- Witness for claim C5: the pair `(1, 2)` occurs twice in the first cloud
and once in the second, and is represented exactly once in the output. -/
theorem find_common_points_dedup_witness :
    ∃! k, k < (find_common_points [(1, 2), (1, 2)] [(1, 2), (5, 5)]).1.length ∧
      ([(1, 2), (1, 2)] : List (ℕ × ℕ)).getD
          ((find_common_points [(1, 2), (1, 2)] [(1, 2), (5, 5)]).1.getD k 0) (0, 0) = (1, 2) ∧
      ([(1, 2), (5, 5)] : List (ℕ × ℕ)).getD
          ((find_common_points [(1, 2), (1, 2)] [(1, 2), (5, 5)]).2.getD k 0) (0, 0) = (1, 2) :=
  find_common_points_dedup _ _ (by decide) (by decide) (1, 2) (by decide) (by decide)

/-! ## Embedding of `pairwise_unwrapped_diff`

Phase arrays are embedded as rectangular 2-dimensional arrays of exact
rationals: numpy float arithmetic is idealised as exact arithmetic over ℚ,
with the float64 constant `np.pi` embedded as its exact rational value.
The narrowing cast `astype(np.int16)` is embedded as the wrap-around
reduction modulo 2^16 that numpy performs, and `np.allclose` carries its
default relative tolerance `rtol = 1e-5` in addition to the explicit
`atol = 0.01` passed by the source. -/

/-- Exact rational value of the float64 constant `np.pi`,
3.141592653589793115997963468544185161590576171875. -/
def np_pi : ℚ := 884279719003555 / 281474976710656

/-- `np.rint`: round to the nearest integer, ties going to the even
neighbour. -/
def rint (x : ℚ) : ℤ :=
  if x - ⌊x⌋ < 1 / 2 then ⌊x⌋
  else if 1 / 2 < x - ⌊x⌋ then ⌊x⌋ + 1
  else if ⌊x⌋ % 2 = 0 then ⌊x⌋ else ⌊x⌋ + 1

/-- `astype(np.int16)` on an integral value: wrap-around reduction modulo
2^16 into the interval [-32768, 32767]. -/
def toInt16 (n : ℤ) : ℤ := (n + 32768) % 65536 - 32768

/-- A 2-dimensional numpy array of rationals.  Numpy arrays are rectangular,
so the shape is two numbers together with a total entry function (entries
outside the shape are irrelevant to every definition below). -/
structure Arr2 where
  bands : ℕ
  samples : ℕ
  entry : ℕ → ℕ → ℚ

/-- The elementwise cycle difference `diff[:, :] = (b2 - b1) / (2 * np.pi)`
of the source (stored there in a float32 array; float rounding is idealised
to exact rational arithmetic). -/
def cycleDiff (b1 b2 : Arr2) (i j : ℕ) : ℚ :=
  (b2.entry i j - b1.entry i j) / (2 * np_pi)

/-- `nint = np.rint(diff).astype(np.int16)` of the source, elementwise. -/
def nintVal (b1 b2 : Arr2) (i j : ℕ) : ℤ := toInt16 (rint (cycleDiff b1 b2 i j))

/-- `np.allclose(diff, nint, atol=0.01)` of the source: elementwise
`|diff - nint| <= atol + rtol * |nint|` with the explicit `atol = 0.01` and
the numpy default `rtol = 1e-5`. -/
def allcloseCheck (b1 b2 : Arr2) : Bool :=
  (List.range b1.bands).all fun i =>
    (List.range b1.samples).all fun j =>
      decide (|cycleDiff b1 b2 i j - (nintVal b1 b2 i j : ℚ)| ≤
        1 / 100 + 1 / 100000 * |(nintVal b1 b2 i j : ℚ)|)

/-- The gather positions
`inds = (np.linspace(0, 100, 11) * b1.shape[1]).astype(np.int)` of the
source: `np.linspace(0, 100, 11)` is exactly `[0, 10, 20, ..., 100]` (these
values and their products with the integer `shape[1]` are exact in float64),
so position `t` is `10 * t * samples`. -/
def percentileInds (samples : ℕ) : List ℕ :=
  (List.range 11).map fun t => 10 * t * samples

/-- One row of `np.sort(nint, axis=-1)`: the rounded differences of band `i`
in ascending order. -/
def sortedRow (b1 b2 : Arr2) (i : ℕ) : List ℤ :=
  List.insertionSort (· ≤ ·) ((List.range b1.samples).map fun j => nintVal b1 b2 i j)

/-- The failure modes of `pairwise_unwrapped_diff`. -/
inductive PDErr where
  /-- `ValueError("Shape mismatch: ...")` -/
  | shapeMismatch
  /-- `ValueError("Need atleast 11 elements per band - ...")` -/
  | sampleCount
  /-- `AssertionError("Arrays differ by non-integer cycles")` -/
  | assertCycles
  /-- failure of the final gather `diff[:, inds]`: a gather position is out
  of the valid range of the sorted axis, raising `IndexError` (on
  NumPy >= 1.24 the expression `np.int` itself raises `AttributeError` at
  the same line; either way the call fails here) -/
  | indexError
  deriving DecidableEq

/-- Embedding of `pairwise_unwrapped_diff`.  The `ndim != 2` branch of the
source can never fire here because `Arr2` is 2-dimensional by construction
(every claim about this function concerns 2-dimensional inputs). -/
def pairwise_unwrapped_diff (b1 b2 : Arr2) : Except PDErr (List (List ℤ)) :=
  if b1.bands ≠ b2.bands ∨ b1.samples ≠ b2.samples then .error .shapeMismatch
  else if b1.samples ≠ 11 then .error .sampleCount
  else if allcloseCheck b1 b2 then
    if (percentileInds b1.samples).all (fun r => decide (r < b1.samples)) then
      .ok ((List.range b1.bands).map fun i =>
        (percentileInds b1.samples).map fun r => (sortedRow b1 b2 i).getD r 0)
    else .error .indexError
  else .error .assertCycles

/-- Rounding to the nearest integer moves a value by at most one half. -/
theorem rint_close (x : ℚ) : |x - (rint x : ℚ)| ≤ 1 / 2 := by
  have h1 : ((⌊x⌋ : ℤ) : ℚ) ≤ x := Int.floor_le x
  have h2 : x < ⌊x⌋ + 1 := Int.lt_floor_add_one x
  unfold rint
  split
  case isTrue h =>
    rw [abs_of_nonneg (by linarith)]
    linarith
  case isFalse h =>
    split
    case isTrue h3 =>
      push_cast
      rw [abs_of_nonpos (by linarith)]
      linarith
    case isFalse h3 =>
      have heq : x - ((⌊x⌋ : ℤ) : ℚ) = 1 / 2 := le_antisymm (not_lt.mp h3) (not_lt.mp h)
      split
      · rw [abs_of_nonneg (by linarith)]
        linarith
      · push_cast
        rw [abs_of_nonpos (by linarith)]
        linarith

/-- Rounding an integer value returns it unchanged. -/
theorem rint_intCast (k : ℤ) : rint (k : ℚ) = k := by
  unfold rint
  rw [Int.floor_intCast, sub_self]
  norm_num

/-- The wrapped value lies in the int16 range. -/
theorem toInt16_mem (n : ℤ) : -32768 ≤ toInt16 n ∧ toInt16 n ≤ 32767 := by
  unfold toInt16
  have h1 : 0 ≤ (n + 32768) % 65536 := Int.emod_nonneg _ (by norm_num)
  have h2 : (n + 32768) % 65536 < 65536 := Int.emod_lt_of_pos _ (by norm_num)
  omega

/-- Wrapping changes a value by a multiple of 2^16. -/
theorem toInt16_dvd (n : ℤ) : (65536 : ℤ) ∣ n - toInt16 n := by
  unfold toInt16
  have h := Int.ediv_add_emod (n + 32768) 65536
  exact ⟨(n + 32768) / 65536, by omega⟩

/-- Values already inside the int16 range are fixed by the wrap. -/
theorem toInt16_eq_self {n : ℤ} (h1 : -32768 ≤ n) (h2 : n ≤ 32767) : toInt16 n = n := by
  unfold toInt16
  rw [Int.emod_eq_of_lt (by omega) (by omega)]
  omega

/-- If every cycle difference equals one and the same int16-range integer,
the closeness assertion passes. -/
theorem allcloseCheck_of_int (b1 b2 : Arr2) (k : ℤ)
    (h : ∀ i j, cycleDiff b1 b2 i j = (k : ℚ))
    (hk1 : -32768 ≤ k) (hk2 : k ≤ 32767) : allcloseCheck b1 b2 = true := by
  unfold allcloseCheck
  rw [List.all_eq_true]
  intro i hi
  rw [List.all_eq_true]
  intro j hj
  rw [decide_eq_true_eq]
  simp only [nintVal, h, rint_intCast, toInt16_eq_self hk1 hk2]
  rw [sub_self, abs_zero]
  positivity

/-- The gather positions all exceed the axis length at `samples = 11`
(aside from position 0): the bound check of the gather fails. -/
theorem percentileInds_out_of_range :
    (percentileInds 11).all (fun r => decide (r < 11)) = false := by decide

/-- For accepted shapes, a passing closeness assertion still ends in the
failing gather. -/
theorem pd_indexError_of_allclose {b1 b2 : Arr2} (hb : b1.bands = b2.bands)
    (hs : b1.samples = b2.samples) (h11 : b1.samples = 11)
    (hac : allcloseCheck b1 b2 = true) :
    pairwise_unwrapped_diff b1 b2 = .error .indexError := by
  unfold pairwise_unwrapped_diff
  rw [if_neg (by simp [hb, hs]), if_neg (by simp [h11]), if_pos hac, h11,
    if_neg (by simp [percentileInds_out_of_range])]

/-- For accepted shapes, a failing closeness assertion raises the
`AssertionError`. -/
theorem pd_assert_of_not_allclose {b1 b2 : Arr2} (hb : b1.bands = b2.bands)
    (hs : b1.samples = b2.samples) (h11 : b1.samples = 11)
    (hac : allcloseCheck b1 b2 = false) :
    pairwise_unwrapped_diff b1 b2 = .error .assertCycles := by
  unfold pairwise_unwrapped_diff
  rw [if_neg (by simp [hb, hs]), if_neg (by simp [h11]), if_neg (by simp [hac])]

/-- The all-zero phase array of shape (1, 11). -/
def zeros_1_11 : Arr2 := ⟨1, 11, fun _ _ => 0⟩

/-- Shape (1, 11) with every entry `2π·1`: one clean cycle away from zero. -/
def oneCycle_1_11 : Arr2 := ⟨1, 11, fun _ _ => 2 * np_pi⟩

/-- The all-zero phase array of shape (1, 12). -/
def zeros_1_12 : Arr2 := ⟨1, 12, fun _ _ => 0⟩

/-- Shape (1, 11) with every entry `2π·32768`: a clean integer number of
cycles that does not fit in an int16. -/
def bigCycle_1_11 : Arr2 := ⟨1, 11, fun _ _ => 2 * np_pi * 32768⟩

theorem cycleDiff_zeros_zeros (i j : ℕ) : cycleDiff zeros_1_11 zeros_1_11 i j = 0 := by
  unfold cycleDiff zeros_1_11 np_pi
  norm_num

theorem cycleDiff_zeros_one (i j : ℕ) : cycleDiff zeros_1_11 oneCycle_1_11 i j = 1 := by
  unfold cycleDiff zeros_1_11 oneCycle_1_11 np_pi
  norm_num

theorem cycleDiff_zeros_big (i j : ℕ) :
    cycleDiff zeros_1_11 bigCycle_1_11 i j = 32768 := by
  unfold cycleDiff zeros_1_11 bigCycle_1_11 np_pi
  norm_num

/-- Claim C1: the gather positions of `pairwise_unwrapped_diff` are
`(linspace(0, 100, 11) * samples).astype(int)`, which at the accepted
sample count 11 equals `[0, 110, ..., 1100]` — NOT `floor(p/100 * samples)`:
every position except the first lies outside the valid index range
`[0, 10]`, so the final gather fails and the function never returns the
documented `(bands, 11)` histogram.  Evaluated here at the concrete
accepted input `b1 = b2 = zeros((1, 11))`. -/
theorem percentileInds_bug :
    percentileInds 11 = [0, 110, 220, 330, 440, 550, 660, 770, 880, 990, 1100] ∧
    ¬ (∀ r ∈ percentileInds 11, r ≤ 10) ∧
    pairwise_unwrapped_diff zeros_1_11 zeros_1_11 = .error .indexError :=
  ⟨by decide, by decide,
    pd_indexError_of_allclose rfl rfl rfl
      (allcloseCheck_of_int _ _ 0 (fun i j => by rw [cycleDiff_zeros_zeros]; norm_num)
        (by norm_num) (by norm_num))⟩

/-- Claim C2: the sample-count validation of the source is `shape[1] != 11`,
an exact-equality test: the equal-shape input `zeros((1, 12))`, which has
`samples = 12 >= 11`, is rejected with the sample-count error, contradicting
the lower-bound reading (and the error message "Need atleast 11
elements"). -/
theorem sampleCount_exact_check :
    pairwise_unwrapped_diff zeros_1_12 zeros_1_12 = .error .sampleCount ∧
    11 ≤ zeros_1_12.samples := by
  constructor
  · unfold pairwise_unwrapped_diff
    rw [if_neg (by simp [zeros_1_12]), if_pos (by simp [zeros_1_12])]
  · unfold zeros_1_12
    norm_num

/-- Claim C3: at the concrete input `b1 = zeros((1, 11))`,
`b2 = b1 + 2π·1`, where the claim promises a normal return with every
histogram entry equal to 1, the function instead fails at the final gather
(its positions `[0, 110, ..., 1100]` overflow the sorted axis of length
11). -/
theorem constant_cycle_raises :
    (∀ i j, oneCycle_1_11.entry i j = zeros_1_11.entry i j + 2 * np_pi * 1) ∧
    pairwise_unwrapped_diff zeros_1_11 oneCycle_1_11 = .error .indexError :=
  ⟨fun i j => by unfold zeros_1_11 oneCycle_1_11; ring,
    pd_indexError_of_allclose rfl rfl rfl
      (allcloseCheck_of_int _ _ 1 (fun i j => by rw [cycleDiff_zeros_one]; norm_num)
        (by norm_num) (by norm_num))⟩

theorem rint_big : rint (32768 : ℚ) = 32768 := by
  rw [show (32768 : ℚ) = ((32768 : ℤ) : ℚ) by norm_num, rint_intCast]

theorem nintVal_zeros_big (i j : ℕ) : nintVal zeros_1_11 bigCycle_1_11 i j = -32768 := by
  unfold nintVal
  rw [cycleDiff_zeros_big, rint_big]
  decide

theorem allcloseCheck_zeros_big : allcloseCheck zeros_1_11 bigCycle_1_11 = false := by
  rw [Bool.eq_false_iff]
  intro hac
  unfold allcloseCheck at hac
  rw [List.all_eq_true] at hac
  have h1 := hac 0 (by norm_num [zeros_1_11])
  rw [List.all_eq_true] at h1
  have h2 := h1 0 (by norm_num [zeros_1_11])
  rw [decide_eq_true_eq, cycleDiff_zeros_big, nintVal_zeros_big] at h2
  norm_num at h2

/-- Counterexample to claim C8: at `b1 = zeros((1, 11))`,
`b2 = 2π·32768·ones((1, 11))` every element of `d` equals its nearest
integer exactly (distance 0 ≤ 0.01), yet the tolerance check does not pass:
the comparison is made against the int16-wrapped rounded value -32768 and
the call fails with the assertion error. -/
theorem tolerance_check_counterexample :
    (∀ i j, ∃ n : ℤ, |cycleDiff zeros_1_11 bigCycle_1_11 i j - (n : ℚ)| ≤ 1 / 100) ∧
    pairwise_unwrapped_diff zeros_1_11 bigCycle_1_11 = .error .assertCycles :=
  ⟨fun i j => ⟨32768, by rw [cycleDiff_zeros_big]; norm_num⟩,
    pd_assert_of_not_allclose rfl rfl rfl allcloseCheck_zeros_big⟩

/-- Claim C8 (amended): for equal-shape 2D inputs at the accepted sample
count, the call fails with the assertion error if and only if some element
of `d` differs from its rounded-then-int16-wrapped value by more than
`0.01 + 1e-5 * |wrapped value|`: the comparison value is the wrapped
rounding (not always the nearest integer) and numpy `allclose` keeps its
default relative tolerance `rtol = 1e-5` beside the explicit
`atol = 0.01`. -/
theorem assert_error_iff (b1 b2 : Arr2) (hb : b1.bands = b2.bands)
    (hs : b1.samples = b2.samples) (h11 : b1.samples = 11) :
    pairwise_unwrapped_diff b1 b2 = .error .assertCycles ↔
      ¬ ∀ i < b1.bands, ∀ j < b1.samples,
        |cycleDiff b1 b2 i j - (nintVal b1 b2 i j : ℚ)| ≤
          1 / 100 + 1 / 100000 * |(nintVal b1 b2 i j : ℚ)| := by
  have hiff : allcloseCheck b1 b2 = true ↔
      ∀ i < b1.bands, ∀ j < b1.samples,
        |cycleDiff b1 b2 i j - (nintVal b1 b2 i j : ℚ)| ≤
          1 / 100 + 1 / 100000 * |(nintVal b1 b2 i j : ℚ)| := by
    unfold allcloseCheck
    simp [List.all_eq_true, List.mem_range]
  by_cases hac : allcloseCheck b1 b2 = true
  · rw [pd_indexError_of_allclose hb hs h11 hac]
    exact iff_of_false (by simp) (not_not_intro (hiff.mp hac))
  · rw [pd_assert_of_not_allclose hb hs h11 (by simpa using hac)]
    exact iff_of_true rfl (fun hall => hac (hiff.mpr hall))

/-- Witness for the amended claim C8 at a concrete input on which the
assertion fires. -/
theorem assert_error_iff_witness :
    pairwise_unwrapped_diff zeros_1_11 bigCycle_1_11 = .error .assertCycles ↔
      ¬ ∀ i < zeros_1_11.bands, ∀ j < zeros_1_11.samples,
        |cycleDiff zeros_1_11 bigCycle_1_11 i j -
            (nintVal zeros_1_11 bigCycle_1_11 i j : ℚ)| ≤
          1 / 100 + 1 / 100000 * |(nintVal zeros_1_11 bigCycle_1_11 i j : ℚ)| :=
  assert_error_iff zeros_1_11 bigCycle_1_11 rfl rfl rfl

/-- Counterexample to claim C9: at the accepted-shape input
`b1 = zeros((1, 11))`, `b2 = 2π·32768·ones((1, 11))` the true integer cycle
difference 32768 lies outside int16 and indeed wraps to -32768, but no such
value ever enters the sorted histogram: the call aborts at the closeness
assertion. -/
theorem int16_wrap_counterexample :
    rint (cycleDiff zeros_1_11 bigCycle_1_11 0 0) = 32768 ∧
    toInt16 32768 = -32768 ∧
    pairwise_unwrapped_diff zeros_1_11 bigCycle_1_11 = .error .assertCycles :=
  ⟨by rw [cycleDiff_zeros_big, rint_big], by decide,
    pd_assert_of_not_allclose rfl rfl rfl allcloseCheck_zeros_big⟩

/-- Claim C9 (amended): the rounded cycle differences are stored through the
int16 wrap — the stored value lies in [-32768, 32767] and differs from the
true rounded difference by a multiple of 2^16 — but whenever some element
has its true rounded difference outside the int16 range, the wrapped value
fails the closeness assertion, so the call raises the assertion error and
the wrapped value never reaches the sorted histogram. -/
theorem int16_wrap_asserts (b1 b2 : Arr2) (hb : b1.bands = b2.bands)
    (hs : b1.samples = b2.samples) (h11 : b1.samples = 11)
    (i j : ℕ) (hi : i < b1.bands) (hj : j < b1.samples)
    (hout : rint (cycleDiff b1 b2 i j) < -32768 ∨ 32767 < rint (cycleDiff b1 b2 i j)) :
    (-32768 ≤ nintVal b1 b2 i j ∧ nintVal b1 b2 i j ≤ 32767) ∧
    (65536 : ℤ) ∣ rint (cycleDiff b1 b2 i j) - nintVal b1 b2 i j ∧
    pairwise_unwrapped_diff b1 b2 = .error .assertCycles := by
  refine ⟨toInt16_mem _, toInt16_dvd _, ?_⟩
  apply pd_assert_of_not_allclose hb hs h11
  rw [Bool.eq_false_iff]
  intro hac
  unfold allcloseCheck at hac
  rw [List.all_eq_true] at hac
  have h1 := hac i (List.mem_range.mpr hi)
  rw [List.all_eq_true] at h1
  have h2 := h1 j (List.mem_range.mpr hj)
  rw [decide_eq_true_eq] at h2
  have hclose := rint_close (cycleDiff b1 b2 i j)
  obtain ⟨t, ht⟩ := toInt16_dvd (rint (cycleDiff b1 b2 i j))
  have hw := toInt16_mem (rint (cycleDiff b1 b2 i j))
  have ht0 : t ≠ 0 := by
    intro h0
    rw [h0, mul_zero] at ht
    have : rint (cycleDiff b1 b2 i j) = toInt16 (rint (cycleDiff b1 b2 i j)) := by omega
    omega
  have htq : ((rint (cycleDiff b1 b2 i j) : ℚ)) - ((nintVal b1 b2 i j : ℚ)) =
      65536 * (t : ℚ) := by
    unfold nintVal
    exact_mod_cast ht
  have habs : (65536 : ℚ) ≤ |(rint (cycleDiff b1 b2 i j) : ℚ) - (nintVal b1 b2 i j : ℚ)| := by
    rw [htq, abs_mul]
    have h1t : (1 : ℚ) ≤ |(t : ℚ)| := by
      have : (1 : ℤ) ≤ |t| := Int.one_le_abs ht0
      calc (1 : ℚ) ≤ ((|t| : ℤ) : ℚ) := by exact_mod_cast this
        _ = |(t : ℚ)| := by push_cast; ring
    calc (65536 : ℚ) = |(65536 : ℚ)| * 1 := by norm_num
      _ ≤ |(65536 : ℚ)| * |(t : ℚ)| := by
          exact mul_le_mul_of_nonneg_left h1t (abs_nonneg _)
  have hwq : |(nintVal b1 b2 i j : ℚ)| ≤ 32768 := by
    rw [abs_le]
    unfold nintVal
    constructor
    · exact_mod_cast hw.1
    · have := hw.2
      calc ((toInt16 (rint (cycleDiff b1 b2 i j)) : ℤ) : ℚ) ≤ ((32767 : ℤ) : ℚ) := by
            exact_mod_cast this
        _ ≤ 32768 := by norm_num
  have htri : |(rint (cycleDiff b1 b2 i j) : ℚ) - (nintVal b1 b2 i j : ℚ)| ≤
      |(rint (cycleDiff b1 b2 i j) : ℚ) - cycleDiff b1 b2 i j| +
        |cycleDiff b1 b2 i j - (nintVal b1 b2 i j : ℚ)| :=
    abs_sub_le _ _ _
  rw [abs_sub_comm ((rint (cycleDiff b1 b2 i j) : ℚ)) (cycleDiff b1 b2 i j)] at htri
  linarith

/-- Witness for the amended claim C9 at a concrete input whose true cycle
difference 32768 overflows int16. -/
theorem int16_wrap_asserts_witness :
    (32767 < rint (cycleDiff zeros_1_11 bigCycle_1_11 0 0)) ∧
    ((-32768 ≤ nintVal zeros_1_11 bigCycle_1_11 0 0 ∧
        nintVal zeros_1_11 bigCycle_1_11 0 0 ≤ 32767) ∧
      (65536 : ℤ) ∣ rint (cycleDiff zeros_1_11 bigCycle_1_11 0 0) -
          nintVal zeros_1_11 bigCycle_1_11 0 0 ∧
      pairwise_unwrapped_diff zeros_1_11 bigCycle_1_11 = .error .assertCycles) :=
  by
  refine ⟨by rw [cycleDiff_zeros_big, rint_big]; norm_num, ?_⟩
  have h1 : (0:ℕ) < zeros_1_11.bands := by norm_num [zeros_1_11]
  have h2 : (0:ℕ) < zeros_1_11.samples := by norm_num [zeros_1_11]
  have h3 : 32767 < rint (cycleDiff zeros_1_11 bigCycle_1_11 0 0) := by
    rw [cycleDiff_zeros_big, rint_big]; norm_num
  exact int16_wrap_asserts zeros_1_11 bigCycle_1_11 rfl rfl rfl 0 0 h1 h2 (Or.inr h3)

/-! ## Embedding of `l2_min`

The coefficient argument is a dense `np.ndarray` or a sparse `csr_matrix`;
the source dispatches on `isinstance(amat, np.ndarray)`.  A dense array
enters as a shape with an entry function.  A `csr_matrix` enters as its
shape together with the list of STORED entries, because two library
behaviours depend on the storage rather than on the mathematical matrix:
`np.size(amat)` consults the `.size` attribute, which for a `csr_matrix` is
the number of stored values (nnz), not the product of the shape; and
`np.dot` is not aware of scipy sparse matrices at all.  The two external
library solvers (`numpy.linalg.lstsq` on the dense branch,
`scipy.sparse.linalg.lsqr` on the sparse branch) are collaborators outside
this repository, so they are parameters of the embedding.  The optional
logger only emits a diagnostic message and never influences the returned
value, so it is not modelled. -/

/-- A scipy `csr_matrix`: shape plus the stored `(row, column, value)`
entries.  Scipy enforces on construction that every stored index lies
inside the shape, so that is an invariant of the structure; in particular a
matrix with an empty shape stores nothing. -/
structure Csr where
  rows : ℕ
  cols : ℕ
  stored : List (ℕ × ℕ × ℚ)
  stored_lt : ∀ e ∈ stored, e.1 < rows ∧ e.2.1 < cols

/-- The coefficient argument of `l2_min`: a dense `np.ndarray` or a sparse
`csr_matrix`. -/
inductive AMat where
  | dense (rows cols : ℕ) (entry : ℕ → ℕ → ℚ)
  | sparse (sp : Csr)

/-- Row count of the shape. -/
def AMat.rows : AMat → ℕ
  | .dense r _ _ => r
  | .sparse sp => sp.rows

/-- Column count of the shape. -/
def AMat.cols : AMat → ℕ
  | .dense _ c _ => c
  | .sparse sp => sp.cols

/-- The mathematical coefficient at `(i, j)`: for a sparse matrix the
stored values at that index are summed (canonical csr stores an index at
most once, and scipy sums duplicates on conversion, so the sum is the
represented coefficient). -/
def AMat.entry : AMat → ℕ → ℕ → ℚ
  | .dense _ _ e, i, j => e i j
  | .sparse sp, i, j =>
      ((sp.stored.filter fun t => decide (t.1 = i ∧ t.2.1 = j)).map
        fun t => t.2.2).sum

/-- `np.size(amat)`: `np.size` first consults the `.size` attribute, which
is the element count `rows * cols` for a dense ndarray but the number of
stored values (nnz) for a `csr_matrix`. -/
def AMat.size : AMat → ℕ
  | .dense r c _ => r * c
  | .sparse sp => sp.stored.length

/-- The dispatch `isinstance(amat, np.ndarray)`. -/
def AMat.isDense : AMat → Bool
  | .dense _ _ _ => true
  | .sparse _ => false

/-- Component `i` of the mathematical product `A @ x`. -/
def dotRow (amat : AMat) (i : ℕ) (x : List ℚ) : ℚ :=
  ∑ j ∈ Finset.range amat.cols, amat.entry i j * x.getD j 0

/-- The independent recomputation `b - A@x` named by the specification:
component `i` is `b[i] - (A@x)[i]`, for `i` over the rows of `A`. -/
def residual (amat : AMat) (b x : List ℚ) : List ℚ :=
  (List.range amat.rows).map fun i => b.getD i 0 - dotRow amat i x

/-- The failure modes of `l2_min`. -/
inductive L2Err where
  /-- the precondition `assert amat.shape[0] == b.shape[0]` -/
  | assertShape
  /-- `NotImplementedError` raised while evaluating the return expression
  `b - np.dot(amat, x)` on the sparse branch (see `npDotSub`) -/
  | sparseSub
  deriving DecidableEq

/-- The source return expression `b - np.dot(amat, x)`.  On a dense ndarray
`np.dot` is the matrix-vector product, so the expression is the
componentwise residual.  `np.dot` is, however, not aware of scipy sparse
matrices (scipy documents exactly this): a `csr_matrix` is coerced to a 0-d
object array, `np.dot` degenerates to scalar multiplication yielding an
object array of scaled sparse matrices, and subtracting that object array
from the float entries of `b` raises `NotImplementedError` (scipy refuses
to subtract a sparse matrix from a nonzero scalar; for a zero entry of `b`
it would yield a negated scaled sparse matrix object instead of a number).
No numeric residual is ever produced on the sparse branch, hence `none`. -/
def npDotSub (amat : AMat) (b x : List ℚ) : Option (List ℚ) :=
  match amat with
  | .dense _ _ _ =>
      some ((List.range amat.rows).map fun i => b.getD i 0 - dotRow amat i x)
  | .sparse _ => none

/-- Embedding of `l2_min`. -/
def l2_min (lsq_dense lsq_sparse : AMat → List ℚ → List ℚ)
    (amat : AMat) (b : List ℚ) : Except L2Err (List ℚ × List ℚ) :=
  if amat.size = 0 then
    .ok (List.replicate amat.cols 0, List.replicate amat.rows 0)
  else if amat.rows ≠ b.length then .error .assertShape
  else
    let x := if amat.isDense then lsq_dense amat b else lsq_sparse amat b
    match npDotSub amat b x with
    | some r => .ok (x, r)
    | none => .error .sparseSub

/-- A matrix with an empty shape has `np.size` zero: immediate for a dense
ndarray, and true for a `csr_matrix` because no stored index fits inside an
empty shape, so nothing is stored. -/
theorem size_eq_zero_of_shape_empty {amat : AMat}
    (h : amat.rows = 0 ∨ amat.cols = 0) : amat.size = 0 := by
  cases amat with
  | dense r c e =>
    simp only [AMat.rows, AMat.cols] at h
    simp only [AMat.size]
    rcases h with h | h <;> simp [h]
  | sparse sp =>
    simp only [AMat.rows, AMat.cols] at h
    simp only [AMat.size]
    by_contra hne
    obtain ⟨hd, hmem⟩ :=
      List.exists_mem_of_ne_nil _ (List.length_pos.mp (Nat.pos_of_ne_zero hne))
    have hlt := sp.stored_lt hd hmem
    omega

/-- A matrix with a nonzero `np.size` has a non-empty shape: for a
`csr_matrix` a stored entry exhibits a valid index. -/
theorem shape_pos_of_size_pos {amat : AMat} (h : amat.size ≠ 0) :
    amat.rows * amat.cols ≠ 0 := by
  cases amat with
  | dense r c e =>
    simpa [AMat.size, AMat.rows, AMat.cols] using h
  | sparse sp =>
    simp only [AMat.size] at h
    simp only [AMat.rows, AMat.cols]
    obtain ⟨hd, hmem⟩ :=
      List.exists_mem_of_ne_nil _ (List.length_pos.mp (Nat.pos_of_ne_zero h))
    have hlt := sp.stored_lt hd hmem
    exact Nat.mul_ne_zero (by omega) (by omega)

/-- Evaluation of the empty fast path (shared helper). -/
theorem l2_min_eval_empty (lsq_dense lsq_sparse : AMat → List ℚ → List ℚ)
    (amat : AMat) (b : List ℚ) (h : amat.size = 0) :
    l2_min lsq_dense lsq_sparse amat b =
      .ok (List.replicate amat.cols 0, List.replicate amat.rows 0) := by
  unfold l2_min
  rw [if_pos h]

/-- Claim C6: for a matrix with zero total elements (no rows or no columns)
the solver short-circuits, returning the zero vector of length C and the
zero residual of length R whatever the right-hand side is and whatever the
two library solvers would return — no solve is invoked. -/
theorem l2_min_empty (lsq_dense lsq_sparse : AMat → List ℚ → List ℚ)
    (amat : AMat) (b : List ℚ)
    (h : amat.rows = 0 ∨ amat.cols = 0) :
    l2_min lsq_dense lsq_sparse amat b =
      .ok (List.replicate amat.cols 0, List.replicate amat.rows 0) :=
  l2_min_eval_empty _ _ _ _ (size_eq_zero_of_shape_empty h)

/-- Witness for claim C6 at the shape `(0, 3)` matrix of the spec text. -/
theorem l2_min_empty_witness :
    ((AMat.dense 0 3 fun _ _ => 0).rows = 0 ∨
      (AMat.dense 0 3 fun _ _ => 0).cols = 0) ∧
    l2_min (fun _ _ => []) (fun _ _ => []) (AMat.dense 0 3 fun _ _ => 0) [1, 2] =
      .ok (List.replicate 3 0, List.replicate 0 0) :=
  ⟨Or.inl rfl,
    l2_min_empty (fun _ _ => []) (fun _ _ => []) (AMat.dense 0 3 fun _ _ => 0)
      [1, 2] (Or.inl rfl)⟩

/-- A concrete 1x1 `csr_matrix` with the single stored entry 2 at (0, 0):
the sparse representation of the dense matrix [[2]]. -/
def spCsr_1x1 : Csr :=
  ⟨1, 1, [(0, 0, 2)], by
    intro e he
    rw [List.mem_singleton] at he
    subst he
    exact ⟨Nat.zero_lt_one, Nat.zero_lt_one⟩⟩

/-- Evaluation of the dense branch on a concrete 1x1 system with the
injected solver answering `[5]` (helper for the C7 theorem). -/
theorem l2_min_eval_dense_1x1 :
    l2_min (fun _ _ => [5]) (fun _ _ => [5]) (AMat.dense 1 1 fun _ _ => 2) [3] =
      .ok ([5], [-7]) := by
  unfold l2_min npDotSub
  rw [if_neg (by simp [AMat.size]), if_neg (by simp [AMat.rows])]
  simp only [AMat.isDense, if_true, AMat.rows]
  unfold dotRow
  norm_num [List.range_succ, AMat.cols, AMat.entry]

/-- Evaluation of the sparse branch on the same 1x1 system: the residual
expression fails, so the call raises instead of returning (helper for the
C7 theorem). -/
theorem l2_min_eval_sparse_1x1 :
    l2_min (fun _ _ => [5]) (fun _ _ => [5]) (AMat.sparse spCsr_1x1) [3] =
      .error .sparseSub := by
  unfold l2_min
  rw [if_neg (by simp [AMat.size, spCsr_1x1]), if_neg (by simp [AMat.rows, spCsr_1x1])]
  rfl

/-- Claim C7: the claim promises that the returned residual equals
`b - A@x` recomputed from the returned `x` on BOTH branches, which is what
the source intends (`return x, b - np.dot(amat, x)`; the docstring promises
returning the residual).  The dense branch does return exactly that
recomputation, but on the sparse branch `np.dot` is not a matrix-vector
product for a `csr_matrix` and the return expression raises instead of
producing a numeric residual.  Evaluated here on the same 1x1 system
(matrix [[2]], b = [3], injected solver answer [5]) in both
representations. -/
theorem l2_min_residual_sparse_bug :
    (l2_min (fun _ _ => [5]) (fun _ _ => [5]) (AMat.dense 1 1 fun _ _ => 2) [3] =
        .ok ([5], [-7]) ∧
      ([-7] : List ℚ) = residual (AMat.dense 1 1 fun _ _ => 2) [3] [5]) ∧
    spCsr_1x1.stored ≠ [] ∧
    l2_min (fun _ _ => [5]) (fun _ _ => [5]) (AMat.sparse spCsr_1x1) [3] =
      .error .sparseSub :=
  ⟨⟨l2_min_eval_dense_1x1, by
      unfold residual dotRow
      norm_num [List.range_succ, AMat.rows, AMat.cols, AMat.entry]⟩,
    by simp [spCsr_1x1],
    l2_min_eval_sparse_1x1⟩

/-- Claim C10: the row-count precondition is tested only on the non-empty
branch.  An empty matrix returns the zero vectors even for a right-hand
side of mismatched length, and conversely a shape-assertion failure can
only arise from a non-empty matrix with a genuine row-count mismatch. -/
theorem l2_min_assert_only_nonempty (lsq_dense lsq_sparse : AMat → List ℚ → List ℚ)
    (amat : AMat) (b : List ℚ) :
    (amat.rows * amat.cols = 0 →
      l2_min lsq_dense lsq_sparse amat b =
        .ok (List.replicate amat.cols 0, List.replicate amat.rows 0)) ∧
    (l2_min lsq_dense lsq_sparse amat b = .error .assertShape →
      amat.rows * amat.cols ≠ 0 ∧ amat.rows ≠ b.length) := by
  constructor
  · intro h
    exact l2_min_eval_empty _ _ _ _
      (size_eq_zero_of_shape_empty (Nat.mul_eq_zero.mp h))
  · intro h
    by_cases h0 : amat.size = 0
    · rw [l2_min_eval_empty _ _ _ _ h0] at h
      exact absurd h (by simp)
    · refine ⟨shape_pos_of_size_pos h0, ?_⟩
      intro hlen
      unfold l2_min at h
      rw [if_neg h0, if_neg (fun hn => hn hlen)] at h
      cases amat with
      | dense r c e => simp [npDotSub] at h
      | sparse sp => simp [npDotSub] at h

/-- Witness for claim C10: the empty `(0, 3)` matrix with the mismatched
right-hand side `[1]` succeeds with zeros, and a `(2, 2)` matrix with the
same right-hand side does fail the shape assertion, being non-empty and
mismatched. -/
theorem l2_min_assert_only_nonempty_witness :
    l2_min (fun _ _ => []) (fun _ _ => []) (AMat.dense 0 3 fun _ _ => 0) [1] =
      .ok (List.replicate 3 0, List.replicate 0 0) ∧
    ((AMat.dense 2 2 fun _ _ => 1).rows * (AMat.dense 2 2 fun _ _ => 1).cols ≠ 0 ∧
      (AMat.dense 2 2 fun _ _ => 1).rows ≠ ([(1 : ℚ)] : List ℚ).length) :=
  ⟨(l2_min_assert_only_nonempty (fun _ _ => []) (fun _ _ => [])
      (AMat.dense 0 3 fun _ _ => 0) [1]).1 rfl,
    (l2_min_assert_only_nonempty (fun _ _ => []) (fun _ _ => [])
      (AMat.dense 2 2 fun _ _ => 1) [1]).2 rfl⟩

end Spurt
